import Mathlib

/-
  Verification of the poggle 2D pinball simulation (src/src/shape.rs,
  src/src/poggle.rs).  The Rust code computes with `f32`; the embedding
  idealises `f32` arithmetic as real arithmetic.  Division by zero is the
  junk value 0 (where the Rust code would produce NaN or an infinity the
  source never uses the result, except in degenerate cases noted at the
  theorems concerned).  A `todo` arm in the source (unimplemented Polygon
  geometry, which aborts the process) is modelled by an outer `Option`
  layer: `none` = abort, `some r` = normal result `r`.
-/

noncomputable section

open Classical

/-- 2D vector, modelling `Point<f32>` from src/src/shape.rs. -/
structure Pt where
  x : ℝ
  y : ℝ

/-- Componentwise addition (shape.rs `impl Add for Point`). -/
def Pt.add (a b : Pt) : Pt := ⟨a.x + b.x, a.y + b.y⟩

/-- Componentwise subtraction (shape.rs `impl Sub for Point`). -/
def Pt.sub (a b : Pt) : Pt := ⟨a.x - b.x, a.y - b.y⟩

/-- Scalar multiplication (shape.rs `impl Mul<T> for Point`). -/
def Pt.smul (a : Pt) (r : ℝ) : Pt := ⟨a.x * r, a.y * r⟩

/-- `Point::to`: the vector from `a` to `b` (shape.rs line 55). -/
def Pt.to (a b : Pt) : Pt := b.sub a

/-- `Point::dot` (shape.rs line 59). -/
def Pt.dot (a b : Pt) : ℝ := a.x * b.x + a.y * b.y

/-- `Point::length_squared` (shape.rs line 63). -/
def Pt.length_squared (a : Pt) : ℝ := a.dot a

/-- `Point::distance_to_squared` (shape.rs line 67). -/
def Pt.distance_to_squared (a b : Pt) : ℝ := (a.to b).length_squared

/-- `Point::is_longer_than` (shape.rs line 71): squared-length compare. -/
def Pt.is_longer_than (a : Pt) (r : ℝ) : Prop := a.length_squared > r * r

/-- `Point::length` (shape.rs line 77). -/
def Pt.length (a : Pt) : ℝ := Real.sqrt a.length_squared

/-- `Point::distance_to` (shape.rs line 81). -/
def Pt.distance_to (a b : Pt) : ℝ := Real.sqrt (a.distance_to_squared b)

/-- `Point::normalized` (shape.rs line 85): componentwise division by the
length. -/
def Pt.normalized (a : Pt) : Pt := ⟨a.x / a.length, a.y / a.length⟩

/-- Modelled from the spec: `Point::with_length` is called at
poggle.rs lines 248 and 263 but its definition is missing from src/;
section 4.2 step 3 of the spec describes it as scaling a vector to the
given length, i.e. the normalized direction times the target length. -/
def Pt.with_length (a : Pt) (l : ℝ) : Pt := a.normalized.smul l

/-- `f32::signum` as used by will_collide.  `signum` of a positive float or
of `+0.0` is `1.0`, of a negative float `-1.0`; the real embedding cannot
represent `-0.0`, which only arises from the unused slope of degenerate
movement. -/
def signum (r : ℝ) : ℝ := if r < 0 then -1 else 1

/-- `solve_quadratic` (shape.rs lines 214-226). -/
def solve_quadratic (a b c : ℝ) : Option (ℝ × ℝ) :=
  let midpoint := -b / (2 * a)
  let v := b ^ 2 - 4 * a * c
  if v < 0 then none
  else
    let delta := Real.sqrt v / (2 * a)
    some (midpoint + delta, midpoint - delta)

/-- `Shape` (shape.rs lines 186-194). -/
inductive Shape where
  | Circle (radius : ℝ)
  | Polygon (points : List Pt) (rotation : ℝ)

/-- `Body` (shape.rs lines 196-199). -/
structure Body where
  pos : Pt
  shape : Shape

/-- `Ball` (poggle.rs lines 23-27). -/
structure Ball where
  pos : Pt
  velocity : Pt
  start : Pt

/-- `Ball::RADIUS` (poggle.rs line 30). -/
def Ball.RADIUS : ℝ := 6

/-- `Ball::ELASTICITY` (poggle.rs line 31). -/
def Ball.ELASTICITY : ℝ := 0.9

/-- `GRAVITY` (poggle.rs line 10). -/
def GRAVITY : Pt := ⟨0, 550⟩

/-- `sdl::WINDOW_WIDTH` (sdl.rs line 16), as the f32 cast used in poggle.rs. -/
def WINDOW_WIDTH : ℝ := 1280

/-- `sdl::WINDOW_HEIGHT` (sdl.rs line 17), as the f32 cast used in poggle.rs. -/
def WINDOW_HEIGHT : ℝ := 800

/-- `Ball::new` (poggle.rs lines 61-67): `start` records the launch point. -/
def Ball.new (pos velocity : Pt) : Ball := ⟨pos, velocity, pos⟩

/-- `Ball::will_collide` (poggle.rs lines 69-149).  The outer `Option` is
`none` exactly when the unimplemented Polygon arm (line 147) aborts; the
inner `Option<Pt>` is the predictor's own result.  The `?` on
`solve_quadratic` (negative discriminant) yields `some none`. -/
def Ball.will_collide (ball : Ball) (other : Body) (dt : ℝ) : Option (Option Pt) :=
  match other.shape with
  | Shape.Polygon _ _ => none
  | Shape.Circle radius =>
    let movement := ball.velocity.smul dt
    if ball.pos.distance_to_squared other.pos >
        (radius + Ball.RADIUS + movement.length) ^ 2 then
      some none
    else
      let m := movement.y / movement.x
      let k := ball.pos.y - ball.pos.x * m
      let p := other.pos.x
      let q := other.pos.y
      let r := radius + Ball.RADIUS
      if |movement.x| < 1 then
        let d := ball.pos.x
        match solve_quadratic 1 (-2 * q)
            (p ^ 2 - r ^ 2 + q ^ 2 - 2 * d * p + d ^ 2) with
        | none => some none
        | some (y1, y2) =>
          let y_new := if |y1 - ball.pos.y| < |y2 - ball.pos.y| then y1 else y2
          if movement.is_longer_than (165 * dt) ∧
              signum ball.velocity.y ≠ signum (y_new - ball.pos.y) then
            some none
          else
            some (some ⟨ball.pos.x, y_new⟩)
      else
        match solve_quadratic (m ^ 2 + 1) (2 * (m * k - m * q - p))
            (q ^ 2 - r ^ 2 + p ^ 2 - 2 * k * q + k ^ 2) with
        | none => some none
        | some (x1, x2) =>
          let x_new := if |x1 - ball.pos.x| < |x2 - ball.pos.x| then x1 else x2
          if movement.is_longer_than (165 * dt) ∧
              signum movement.x ≠ signum (x_new - ball.pos.x) then
            some none
          else
            let collision : Pt := ⟨x_new, m * x_new + k⟩
            if ball.pos.distance_to_squared collision * 0.99 >
                movement.length_squared then
              some none
            else
              some (some collision)

/-- `PowerUp` (poggle.rs lines 47-58). -/
inductive PowerUp where
  | SuperGuide | MultiBall | Pyramid | Explosion | SpookyBall
  | MagicWheel | Flippers | Fireball | FlowerPower | Zen

/-- `PegType` (poggle.rs lines 40-45). -/
inductive PegType where
  | Standard
  | Target
  | PointBoost
  | PowerUp (kind : PowerUp)

/-- `Peg` (poggle.rs lines 34-38). -/
structure Peg where
  body : Body
  is_hit : Bool
  peg_type : PegType

/-- The de-penetration of poggle.rs lines 240-252, for a circular peg at
`pegpos` of radius `radius`.  The guard is `Region::contains`
(shape.rs lines 205-212) applied to the peg body extended by the ball
radius; `Body::extend` is missing from src/ and is modelled from the
spec (sections 4.3 step and 8: the peg circle "extended by the ball
radius"), i.e. it grows the circle's radius by its argument.  On
containment the ball is moved to `pegpos + (pegpos -> ballpos)` scaled to
the combined radius; velocity and start are untouched. -/
def depenetrateCircle (ball : Ball) (pegpos : Pt) (radius : ℝ) : Ball :=
  if (pegpos.sub ball.pos).length_squared ≤
      (radius + Ball.RADIUS) * (radius + Ball.RADIUS) then
    ⟨pegpos.add ((pegpos.to ball.pos).with_length (radius + Ball.RADIUS)),
      ball.velocity, ball.start⟩
  else ball

/-- One iteration of the peg loop of `Poggle::update` (poggle.rs lines
239-275) for a single peg: de-penetration, then collision prediction and,
on a hit, resolution (velocity reflection, elasticity rescale,
repositioning, `is_hit := true`).  The returned `Bool` is `true` exactly
when the source executes the `break` (a collision was resolved).  The
outer `Option` is `none` when an unimplemented Polygon arm aborts
(lines 250, 147, or the Polygon arm of `Region::contains`). -/
def processPeg (dt : ℝ) (ball : Ball) (peg : Peg) : Option (Ball × Peg × Bool) :=
  match peg.body.shape with
  | Shape.Polygon _ _ => none
  | Shape.Circle radius =>
    let ball1 := depenetrateCircle ball peg.body.pos radius
    match ball1.will_collide peg.body dt with
    | none => none
    | some none => some (ball1, peg, false)
    | some (some collision) =>
      let start_velocity := ball1.velocity
      let distance_to_travel := ball1.velocity.length * dt
      let reflect := (peg.body.pos.to collision).normalized
      let v1 := ball1.velocity.add (reflect.smul (|reflect.dot ball1.velocity| * 2))
      let v2 := v1.with_length (start_velocity.length * Ball.ELASTICITY)
      let pos2 := collision.add
        (v2.normalized.smul (distance_to_travel - ball1.pos.distance_to collision))
      some (⟨pos2, v2, ball1.start⟩, ⟨peg.body, true, peg.peg_type⟩, true)

/-- The peg loop of `Poggle::update` (poggle.rs lines 239-276): pegs are
scanned in list order; the first resolved collision breaks the loop, so
later pegs are returned unscanned.  The `Option ℕ` reports the index of
the peg whose collision was resolved (`none`: the loop ran to the end
without a `break`); it instruments the `break` for the statements below
and carries no other information. -/
def scanPegs (dt : ℝ) : Ball → List Peg → Option (Ball × List Peg × Option ℕ)
  | ball, [] => some (ball, [], none)
  | ball, peg :: rest =>
    match processPeg dt ball peg with
    | none => none
    | some (b1, peg1, false) =>
      match scanPegs dt b1 rest with
      | none => none
      | some (b2, rest2, oi) => some (b2, peg1 :: rest2, oi.map Nat.succ)
    | some (b1, peg1, true) => some (b1, peg1 :: rest, some 0)

/-- The body of the `retain_mut` closure of `Poggle::update` (poggle.rs
lines 230-291) for one ball: drop the ball if below the playfield
(lines 231-233), else integrate gravity then position (lines 235-237),
run the peg scan, and apply the side-wall rule (lines 278-282).  Result
`some (none, ...)` means the ball was dropped (`retain` returned false);
the threaded peg list and the resolved-peg instrumentation are returned
alongside. -/
def updateBall (dt : ℝ) (pegs : List Peg) (ball : Ball) :
    Option (Option Ball × List Peg × Option ℕ) :=
  if ball.pos.y > WINDOW_HEIGHT + Ball.RADIUS then
    some (none, pegs, none)
  else
    let v1 := ball.velocity.add (GRAVITY.smul dt)
    let b1 : Ball := ⟨ball.pos.add (v1.smul dt), v1, ball.start⟩
    match scanPegs dt b1 pegs with
    | none => none
    | some (b2, pegs2, oi) =>
      let b3 : Ball :=
        if b2.pos.x < Ball.RADIUS / 2 ∨ b2.pos.x > WINDOW_WIDTH - Ball.RADIUS / 2 then
          ⟨b2.pos, ⟨-b2.velocity.x, b2.velocity.y⟩, b2.start⟩
        else b2
      some (some b3, pegs2, oi)

/-- `retain_mut` over the ball pool (poggle.rs line 230): balls are
processed in pool order, the peg list is threaded through, kept balls are
collected in order.  The `List ℕ` collects the indices of pegs whose
collisions were resolved during the pass (instrumentation only). -/
def updateBalls (dt : ℝ) : List Ball → List Peg → Option (List Ball × List Peg × List ℕ)
  | [], pegs => some ([], pegs, [])
  | b :: bs, pegs =>
    match updateBall dt pegs b with
    | none => none
    | some (ob, pegs1, oi) =>
      match updateBalls dt bs pegs1 with
      | none => none
      | some (bs2, pegs2, is) =>
        some ((match ob with | none => bs2 | some b1 => b1 :: bs2), pegs2,
          oi.elim is (fun i => i :: is))

/-- `Poggle` (poggle.rs lines 12-16); `tick` is a `u64`. -/
structure Poggle where
  balls : List Ball
  pegs : List Peg
  tick : ℕ

/-- `Poggle::shoot` (poggle.rs lines 225-227): push a new ball. -/
def Poggle.shoot (P : Poggle) (origin velocity : Pt) : Poggle :=
  ⟨P.balls ++ [Ball.new origin velocity], P.pegs, P.tick⟩

/-- The peg reset of poggle.rs lines 294-296: clear `is_hit`. -/
def resetPeg (peg : Peg) : Peg := ⟨peg.body, false, peg.peg_type⟩

/-- `Poggle::update` (poggle.rs lines 229-300): process every ball, then
reset all `is_hit` flags if the pool emptied, and advance the `u64` tick. -/
def Poggle.update (P : Poggle) (dt : ℝ) : Option Poggle :=
  match updateBalls dt P.balls P.pegs with
  | none => none
  | some (balls2, pegs2, _) =>
    some ⟨balls2, if balls2.isEmpty then pegs2.map resetPeg else pegs2,
      (P.tick + 1) % 2 ^ 64⟩

/-- Ghost update for the hit-history invariant: mark every peg index whose
collision was resolved this step. -/
def ghostStep (g : List Bool) (is : List ℕ) : List Bool :=
  is.foldl (fun acc i => acc.set i true) g

/-- States reachable by `shoot` and `update` from a fresh board, paired
with a ghost list `g` recording, per peg index, whether some ball has
collided with that peg since the ball pool was last empty.  `init` admits
any board whose pegs are all un-hit; the board built by `Poggle::new`
(poggle.rs lines 161-201, via `generate_grid`, which sets `is_hit:
false` on every peg) is such a board.  `step` resets the ghost when the
pool has just emptied and otherwise adds the pegs resolved this step. -/
inductive ReachG : Poggle → List Bool → Prop where
  | init : ∀ balls pegs tick, (∀ peg ∈ pegs, peg.is_hit = false) →
      ReachG ⟨balls, pegs, tick⟩ (List.replicate pegs.length false)
  | shoot : ∀ P g origin velocity, ReachG P g →
      ReachG (P.shoot origin velocity) g
  | step : ∀ P g dt P₂ balls2 pegs2 is, ReachG P g →
      P.update dt = some P₂ →
      updateBalls dt P.balls P.pegs = some (balls2, pegs2, is) →
      ReachG P₂
        (if balls2.isEmpty then List.replicate pegs2.length false
         else ghostStep g is)

end


/-
  Helper lemmas: square roots of numerals, vector geometry, and structural
  facts about the peg scan and the stepper.
-/

theorem sqrt_of_sq (a b : ℝ) (hb : 0 ≤ b) (h : b ^ 2 = a) : Real.sqrt a = b := by
  rw [← h, Real.sqrt_sq hb]

theorem Pt.length_squared_nonneg (a : Pt) : 0 ≤ a.length_squared := by
  have h1 := mul_self_nonneg a.x
  have h2 := mul_self_nonneg a.y
  simp only [Pt.length_squared, Pt.dot]
  linarith

theorem Pt.length_nonneg (a : Pt) : 0 ≤ a.length := Real.sqrt_nonneg _

theorem Pt.length_eq_zero (a : Pt) : a.length = 0 ↔ a = ⟨0, 0⟩ := by
  obtain ⟨x, y⟩ := a
  simp only [Pt.length, Pt.length_squared, Pt.dot, Real.sqrt_eq_zero', Pt.mk.injEq]
  constructor
  · intro h
    have h1 := mul_self_nonneg x
    have h2 := mul_self_nonneg y
    constructor
    · nlinarith
    · nlinarith
  · rintro ⟨rfl, rfl⟩
    norm_num

theorem Pt.mul_self_length (a : Pt) : a.length * a.length = a.length_squared :=
  Real.mul_self_sqrt a.length_squared_nonneg

theorem Pt.normalized_length (a : Pt) (h : a.length ≠ 0) : a.normalized.length = 1 := by
  have hls : a.length * a.length = a.length_squared := a.mul_self_length
  have hne : a.length_squared ≠ 0 := by
    intro h0
    exact h (by rw [Pt.length, h0, Real.sqrt_zero])
  have h1 : (a.normalized).length_squared = 1 := by
    simp only [Pt.normalized, Pt.length_squared, Pt.dot] at *
    field_simp
    linarith [hls]
  rw [Pt.length, h1, Real.sqrt_one]

theorem Pt.smul_length (a : Pt) (c : ℝ) : (a.smul c).length = |c| * a.length := by
  have h : (a.smul c).length_squared = c ^ 2 * a.length_squared := by
    simp only [Pt.smul, Pt.length_squared, Pt.dot]
    ring
  rw [Pt.length, h, Real.sqrt_mul (sq_nonneg c), Real.sqrt_sq_eq_abs, Pt.length]

theorem Pt.smul_zero_eq (a : Pt) : a.smul 0 = ⟨0, 0⟩ := by
  simp [Pt.smul]

theorem Pt.with_length_length (a : Pt) (l : ℝ) (ha : a ≠ ⟨0, 0⟩) (hl : 0 ≤ l) :
    (a.with_length l).length = l := by
  have h : a.length ≠ 0 := fun h0 => ha (a.length_eq_zero.mp h0)
  rw [Pt.with_length, Pt.smul_length, Pt.normalized_length a h, mul_one,
    abs_of_nonneg hl]

theorem Pt.normalized_cases (a : Pt) :
    a.normalized = ⟨0, 0⟩ ∨ a.normalized.length_squared = 1 := by
  by_cases h : a = ⟨0, 0⟩
  · left
    rw [h]
    simp [Pt.normalized, Pt.length, Pt.length_squared, Pt.dot]
  · right
    have hl : a.normalized.length = 1 :=
      a.normalized_length (fun h0 => h (a.length_eq_zero.mp h0))
    have h2 := a.normalized.mul_self_length
    rw [hl] at h2
    linarith

theorem Pt.sub_eq_zero_iff_eq (a b : Pt) : a.sub b = ⟨0, 0⟩ ↔ a = b := by
  obtain ⟨a1, a2⟩ := a
  obtain ⟨b1, b2⟩ := b
  simp only [Pt.sub, Pt.mk.injEq]
  rw [sub_eq_zero, sub_eq_zero]

theorem Pt.distance_add_left (p w : Pt) : (p.add w).distance_to p = w.length := by
  simp only [Pt.distance_to, Pt.distance_to_squared, Pt.to, Pt.sub, Pt.add,
    Pt.length, Pt.length_squared, Pt.dot]
  congr 1
  ring

theorem Pt.add_sub_cancel_left (p w : Pt) : (p.add w).sub p = w := by
  obtain ⟨p1, p2⟩ := p
  obtain ⟨w1, w2⟩ := w
  simp only [Pt.add, Pt.sub, Pt.mk.injEq]
  constructor <;> ring

theorem Pt.with_length_eq_smul (a : Pt) (l : ℝ) :
    a.with_length l = a.smul (l / a.length) := by
  simp only [Pt.with_length, Pt.normalized, Pt.smul, Pt.mk.injEq]
  constructor <;> ring

theorem reflect_add_ne_zero (v n : Pt) (hv : v ≠ ⟨0, 0⟩)
    (hn : n = ⟨0, 0⟩ ∨ n.length_squared = 1) :
    v.add (n.smul (|n.dot v| * 2)) ≠ ⟨0, 0⟩ := by
  rcases hn with hn | hn
  · rw [hn]
    obtain ⟨x, y⟩ := v
    simpa [Pt.add, Pt.smul, Pt.dot] using hv
  · intro h0
    obtain ⟨vx, vy⟩ := v
    obtain ⟨nx, ny⟩ := n
    simp only [Pt.add, Pt.smul, Pt.dot, Pt.length_squared, Pt.mk.injEq] at h0 hn ⊢
    obtain ⟨h1, h2⟩ := h0
    apply hv
    simp only [Pt.mk.injEq]
    set d := nx * vx + ny * vy with hdd
    rcases abs_cases d with ⟨ha, hd⟩ | ⟨ha, hd⟩
    · rw [ha] at h1 h2
      have hd0 : d = 0 := by
        linear_combination (nx * h1 + ny * h2 - 2 * d * hn) / 3
      rw [hd0] at h1 h2
      constructor <;> linarith
    · rw [ha] at h1 h2
      have hd0 : d = 0 := by
        linear_combination -(nx * h1 + ny * h2 + 2 * d * hn)
      rw [hd0] at h1 h2
      constructor <;> linarith

theorem depen_velocity (b : Ball) (p : Pt) (r : ℝ) :
    (depenetrateCircle b p r).velocity = b.velocity := by
  rw [depenetrateCircle]
  split <;> rfl

theorem depen_start (b : Ball) (p : Pt) (r : ℝ) :
    (depenetrateCircle b p r).start = b.start := by
  rw [depenetrateCircle]
  split <;> rfl

/-- Evaluation of the predictor at the spec test vector of section 8: ball
at the origin moving right at 100, peg at (50,0) of radius 10, one-second
tick.  The code's combined radius is 10 + 6 = 16, so first contact is at
x = 34. -/
theorem wc_eval_1 :
    Ball.will_collide ⟨⟨0,0⟩, ⟨100,0⟩, ⟨0,0⟩⟩ ⟨⟨50,0⟩, Shape.Circle 10⟩ 1 =
      some (some ⟨34, 0⟩) := by
  have h1 : Real.sqrt 10000 = 100 := sqrt_of_sq _ _ (by norm_num) (by norm_num)
  have h2 : Real.sqrt 1024 = 32 := sqrt_of_sq _ _ (by norm_num) (by norm_num)
  norm_num [Ball.will_collide, Pt.smul, Pt.length, Pt.length_squared, Pt.dot,
    Pt.distance_to_squared, Pt.to, Pt.sub, Pt.is_longer_than, signum,
    solve_quadratic, Ball.RADIUS, h1, h2]

/-- Evaluation of the predictor for a fast ball (speed 200 > 165), same
geometry: the direction guard is active but satisfied. -/
theorem wc_eval_fast :
    Ball.will_collide ⟨⟨0,0⟩, ⟨200,0⟩, ⟨0,0⟩⟩ ⟨⟨50,0⟩, Shape.Circle 10⟩ 1 =
      some (some ⟨34, 0⟩) := by
  have h1 : Real.sqrt 40000 = 200 := sqrt_of_sq _ _ (by norm_num) (by norm_num)
  have h2 : Real.sqrt 1024 = 32 := sqrt_of_sq _ _ (by norm_num) (by norm_num)
  norm_num [Ball.will_collide, Pt.smul, Pt.length, Pt.length_squared, Pt.dot,
    Pt.distance_to_squared, Pt.to, Pt.sub, Pt.is_longer_than, signum,
    solve_quadratic, Ball.RADIUS, h1, h2]

/-- Evaluation of the predictor for a distant peg: broad-phase reject. -/
theorem wc_eval_far :
    Ball.will_collide ⟨⟨0,0⟩, ⟨100,0⟩, ⟨0,0⟩⟩ ⟨⟨0,500⟩, Shape.Circle 10⟩ 1 =
      some none := by
  have h1 : Real.sqrt 10000 = 100 := sqrt_of_sq _ _ (by norm_num) (by norm_num)
  norm_num [Ball.will_collide, Pt.smul, Pt.length, Pt.length_squared, Pt.dot,
    Pt.distance_to_squared, Pt.to, Pt.sub, Ball.RADIUS, h1]

/-- Evaluation of a full collision resolution: the ball of `wc_eval_1`
against its peg.  Reflection about the outward normal (-1,0), elasticity
rescale to 90, reposition by the remaining travel budget 100 - 34 = 66. -/
theorem pp_eval_hit :
    processPeg 1 ⟨⟨0,0⟩, ⟨100,0⟩, ⟨0,0⟩⟩
      ⟨⟨⟨50,0⟩, Shape.Circle 10⟩, false, PegType.Standard⟩ =
    some (⟨⟨-32,0⟩, ⟨-90,0⟩, ⟨0,0⟩⟩,
      ⟨⟨⟨50,0⟩, Shape.Circle 10⟩, true, PegType.Standard⟩, true) := by
  have h1 : Real.sqrt 10000 = 100 := sqrt_of_sq _ _ (by norm_num) (by norm_num)
  have h2 : Real.sqrt 256 = 16 := sqrt_of_sq _ _ (by norm_num) (by norm_num)
  have h3 : Real.sqrt 1156 = 34 := sqrt_of_sq _ _ (by norm_num) (by norm_num)
  have h4 : Real.sqrt 8100 = 90 := sqrt_of_sq _ _ (by norm_num) (by norm_num)
  norm_num [processPeg, depenetrateCircle, wc_eval_1, Pt.smul, Pt.length,
    Pt.length_squared, Pt.dot, Pt.distance_to_squared, Pt.distance_to, Pt.to,
    Pt.sub, Pt.add, Pt.normalized, Pt.with_length, Ball.RADIUS, Ball.ELASTICITY,
    h1, h2, h3, h4]

/-- Evaluation of a no-collision peg iteration (distant peg): the ball and
the peg are returned unchanged and the loop flag is false. -/
theorem pp_eval_far :
    processPeg 1 ⟨⟨0,0⟩, ⟨100,0⟩, ⟨0,0⟩⟩
      ⟨⟨⟨0,500⟩, Shape.Circle 10⟩, false, PegType.Standard⟩ =
    some (⟨⟨0,0⟩, ⟨100,0⟩, ⟨0,0⟩⟩,
      ⟨⟨⟨0,500⟩, Shape.Circle 10⟩, false, PegType.Standard⟩, false) := by
  have hd : depenetrateCircle ⟨⟨0,0⟩, ⟨100,0⟩, ⟨0,0⟩⟩ ⟨0,500⟩ 10 =
      ⟨⟨0,0⟩, ⟨100,0⟩, ⟨0,0⟩⟩ := by
    rw [depenetrateCircle, if_neg]
    norm_num [Pt.sub, Pt.length_squared, Pt.dot, Ball.RADIUS]
  simp only [processPeg, hd, wc_eval_far]

/-- Evaluation of a three-peg scan: the second peg collides, the scan stops
there, the third peg is returned untouched, and the resolved index is 1. -/
theorem scan_eval :
    scanPegs 1 ⟨⟨0,0⟩, ⟨100,0⟩, ⟨0,0⟩⟩
      [⟨⟨⟨0,500⟩, Shape.Circle 10⟩, false, PegType.Standard⟩,
       ⟨⟨⟨50,0⟩, Shape.Circle 10⟩, false, PegType.Standard⟩,
       ⟨⟨⟨0,999⟩, Shape.Circle 10⟩, false, PegType.Standard⟩] =
    some (⟨⟨-32,0⟩, ⟨-90,0⟩, ⟨0,0⟩⟩,
      [⟨⟨⟨0,500⟩, Shape.Circle 10⟩, false, PegType.Standard⟩,
       ⟨⟨⟨50,0⟩, Shape.Circle 10⟩, true, PegType.Standard⟩,
       ⟨⟨⟨0,999⟩, Shape.Circle 10⟩, false, PegType.Standard⟩], some 1) := by
  rw [scanPegs, pp_eval_far]
  dsimp only
  rw [scanPegs, pp_eval_hit]
  rfl

/-- A peg iteration that ends without a `break` returns the peg unchanged. -/
theorem processPeg_false_peg (dt : ℝ) (ball : Ball) (peg : Peg) (b1 : Ball)
    (peg1 : Peg) (h : processPeg dt ball peg = some (b1, peg1, false)) :
    peg1 = peg := by
  simp only [processPeg] at h
  split at h
  next => simp at h
  next radius hshape =>
    split at h
    next => simp at h
    next hwc =>
      rw [Option.some.injEq, Prod.mk.injEq, Prod.mk.injEq] at h
      exact h.2.1.symm
    next collision hwc => simp at h

/-- A peg iteration that resolves a collision returns the peg with only its
`is_hit` flag raised. -/
theorem processPeg_true_peg (dt : ℝ) (ball : Ball) (peg : Peg) (b1 : Ball)
    (peg1 : Peg) (h : processPeg dt ball peg = some (b1, peg1, true)) :
    peg1 = ⟨peg.body, true, peg.peg_type⟩ := by
  simp only [processPeg] at h
  split at h
  next => simp at h
  next radius hshape =>
    split at h
    next => simp at h
    next hwc => simp at h
    next collision hwc =>
      rw [Option.some.injEq, Prod.mk.injEq, Prod.mk.injEq] at h
      exact h.2.1.symm

/-- The scan changes peg list length never, bodies and types never, and a
peg's `is_hit` flag becomes true exactly if it was already true or the scan
resolved a collision at that index. -/
theorem scanPegs_pegs (dt : ℝ) (pegs : List Peg) :
    ∀ ball b2 pegs2 oi, scanPegs dt ball pegs = some (b2, pegs2, oi) →
    pegs2.length = pegs.length ∧
    ∀ i (h1 : i < pegs.length) (h2 : i < pegs2.length),
      pegs2[i].body = pegs[i].body ∧
      pegs2[i].peg_type = pegs[i].peg_type ∧
      (pegs2[i].is_hit = true ↔ (pegs[i].is_hit = true ∨ oi = some i)) := by
  induction pegs with
  | nil =>
    intro ball b2 pegs2 oi h
    rw [scanPegs, Option.some.injEq, Prod.mk.injEq, Prod.mk.injEq] at h
    obtain ⟨-, hp, -⟩ := h
    refine ⟨by rw [← hp], ?_⟩
    intro i h1 h2
    simp at h1
  | cons peg rest ih =>
    intro ball b2 pegs2 oi h
    rw [scanPegs] at h
    cases hp : processPeg dt ball peg with
    | none => rw [hp] at h; exact absurd h (by simp)
    | some trip =>
      obtain ⟨b1, peg1, flag⟩ := trip
      rw [hp] at h
      cases flag with
      | true =>
        have hpeg1 := processPeg_true_peg dt ball peg b1 peg1 hp
        dsimp only at h
        rw [Option.some.injEq, Prod.mk.injEq, Prod.mk.injEq] at h
        obtain ⟨-, hl, ho⟩ := h
        subst hpeg1
        subst hl
        subst ho
        refine ⟨by simp, ?_⟩
        intro i h1 h2
        cases i with
        | zero => simp
        | succ n =>
          simp
      | false =>
        have hpeg1 := processPeg_false_peg dt ball peg b1 peg1 hp
        subst hpeg1
        dsimp only at h
        cases hs : scanPegs dt b1 rest with
        | none => rw [hs] at h; exact absurd h (by simp)
        | some trip2 =>
          obtain ⟨b2x, rest2, oi2⟩ := trip2
          rw [hs, Option.some.injEq, Prod.mk.injEq, Prod.mk.injEq] at h
          obtain ⟨-, hl, ho⟩ := h
          obtain ⟨ihlen, ihidx⟩ := ih b1 b2x rest2 oi2 hs
          subst hl
          subst ho
          refine ⟨by simp [ihlen], ?_⟩
          intro i h1 h2
          cases i with
          | zero =>
            refine ⟨rfl, rfl, ?_⟩
            cases oi2 <;> simp
          | succ n =>
            simp only [List.getElem_cons_succ]
            have hn1 : n < rest.length := by
              simp at h1
              omega
            have hn2 : n < rest2.length := by
              simp at h2
              omega
            obtain ⟨hb, ht, hiff⟩ := ihidx n hn1 hn2
            refine ⟨hb, ht, ?_⟩
            rw [hiff]
            cases oi2 with
            | none => simp
            | some k => simp [Nat.succ_inj]

/-- One ball's pass leaves the peg list length, bodies and types unchanged;
flags change only at the resolved index. -/
theorem updateBall_pegs (dt : ℝ) (pegs : List Peg) (ball : Ball) (ob : Option Ball)
    (pegs1 : List Peg) (oi : Option ℕ)
    (h : updateBall dt pegs ball = some (ob, pegs1, oi)) :
    pegs1.length = pegs.length ∧
    ∀ i (h1 : i < pegs.length) (h2 : i < pegs1.length),
      pegs1[i].body = pegs[i].body ∧
      pegs1[i].peg_type = pegs[i].peg_type ∧
      (pegs1[i].is_hit = true ↔ (pegs[i].is_hit = true ∨ oi = some i)) := by
  simp only [updateBall] at h
  split at h
  · rw [Option.some.injEq, Prod.mk.injEq, Prod.mk.injEq] at h
    obtain ⟨-, hp, ho⟩ := h
    subst hp
    subst ho
    exact ⟨rfl, fun i h1 h2 => ⟨rfl, rfl, by simp⟩⟩
  · split at h
    next => exact absurd h (by simp)
    next b2 pegs2x oi2 hs =>
      rw [Option.some.injEq, Prod.mk.injEq, Prod.mk.injEq] at h
      obtain ⟨-, hp, ho⟩ := h
      subst hp
      subst ho
      exact scanPegs_pegs dt pegs _ b2 pegs2x oi2 hs

/-- The whole per-tick ball pass leaves peg list length, bodies and types
unchanged; a flag is raised exactly at indices resolved by some ball. -/
theorem updateBalls_pegs (dt : ℝ) (balls : List Ball) :
    ∀ pegs balls2 pegs2 (is : List ℕ),
    updateBalls dt balls pegs = some (balls2, pegs2, is) →
    pegs2.length = pegs.length ∧
    ∀ i (h1 : i < pegs.length) (h2 : i < pegs2.length),
      pegs2[i].body = pegs[i].body ∧
      pegs2[i].peg_type = pegs[i].peg_type ∧
      (pegs2[i].is_hit = true ↔ (pegs[i].is_hit = true ∨ i ∈ is)) := by
  induction balls with
  | nil =>
    intro pegs balls2 pegs2 is h
    rw [updateBalls, Option.some.injEq, Prod.mk.injEq, Prod.mk.injEq] at h
    obtain ⟨-, hp, hi⟩ := h
    subst hp
    subst hi
    exact ⟨rfl, fun i h1 h2 => ⟨rfl, rfl, by simp⟩⟩
  | cons b bs ih =>
    intro pegs balls2 pegs2 is h
    rw [updateBalls] at h
    cases hub : updateBall dt pegs b with
    | none => rw [hub] at h; exact absurd h (by simp)
    | some trip =>
      obtain ⟨ob, pegs1, oi⟩ := trip
      rw [hub] at h
      dsimp only at h
      cases hubs : updateBalls dt bs pegs1 with
      | none => rw [hubs] at h; exact absurd h (by simp)
      | some trip2 =>
        obtain ⟨bs2, pegs2x, is2⟩ := trip2
        rw [hubs] at h
        dsimp only at h
        rw [Option.some.injEq, Prod.mk.injEq, Prod.mk.injEq] at h
        obtain ⟨-, hp, hi⟩ := h
        subst hp
        subst hi
        obtain ⟨hlen1, hidx1⟩ := updateBall_pegs dt pegs b ob pegs1 oi hub
        obtain ⟨hlen2, hidx2⟩ := ih pegs1 bs2 pegs2x is2 hubs
        refine ⟨by rw [hlen2, hlen1], ?_⟩
        intro i h1 h2
        have hm1 : i < pegs1.length := by omega
        obtain ⟨hb1, ht1, hf1⟩ := hidx1 i h1 hm1
        obtain ⟨hb2, ht2, hf2⟩ := hidx2 i hm1 h2
        refine ⟨hb2.trans hb1, ht2.trans ht1, ?_⟩
        rw [hf2, hf1]
        cases oi with
        | none => simp [Option.elim]
        | some j =>
          simp only [Option.elim, List.mem_cons, Option.some.injEq]
          constructor
          · rintro ((hx | hx) | hx)
            · exact Or.inl hx
            · exact Or.inr (Or.inl hx.symm)
            · exact Or.inr (Or.inr hx)
          · rintro (hx | hx | hx)
            · exact Or.inl (Or.inl hx)
            · exact Or.inl (Or.inr hx.symm)
            · exact Or.inr hx

/-- Unfolding of the ghost update on a cons. -/
theorem ghostStep_cons (g : List Bool) (j : ℕ) (rest : List ℕ) :
    ghostStep g (j :: rest) = ghostStep (g.set j true) rest := by
  rw [ghostStep, ghostStep, List.foldl_cons]

/-- The ghost update preserves length. -/
theorem ghostStep_length (is : List ℕ) :
    ∀ g : List Bool, (ghostStep g is).length = g.length := by
  induction is with
  | nil => intro g; rfl
  | cons j rest ih =>
    intro g
    rw [ghostStep_cons, ih (g.set j true), List.length_set]

/-- An entry of the stepped ghost is set exactly if it was set before or its
index was resolved this step. -/
theorem ghostStep_get (is : List ℕ) :
    ∀ (g : List Bool) i (h1 : i < g.length) (h2 : i < (ghostStep g is).length),
    ((ghostStep g is)[i] = true ↔ (g[i] = true ∨ i ∈ is)) := by
  induction is with
  | nil =>
    intro g i h1 h2
    simp [ghostStep]
  | cons j rest ih =>
    intro g i h1 h2
    have h1s : i < (g.set j true).length := by rw [List.length_set]; exact h1
    have h2s : i < (ghostStep (g.set j true) rest).length := by
      rw [← ghostStep_cons]; exact h2
    have hih := ih (g.set j true) i h1s h2s
    have hget : (g.set j true)[i] = if j = i then true else g[i] :=
      List.getElem_set h1s
    have hcast : (ghostStep g (j :: rest))[i] = (ghostStep (g.set j true) rest)[i] := by
      simp only [ghostStep_cons]
    rw [hcast, hih, hget]
    by_cases hji : j = i
    · subst hji
      simp
    · rw [if_neg hji]
      constructor
      · rintro (hx | hx)
        · exact Or.inl hx
        · exact Or.inr (List.mem_cons_of_mem _ hx)
      · rintro (hx | hx)
        · exact Or.inl hx
        · rcases List.mem_cons.mp hx with hji2 | hmem
          · exact absurd hji2.symm hji
          · exact Or.inr hmem

/-- A ball below the playfield is dropped immediately: kept = false, pegs
untouched, no collision resolved. -/
theorem updateBall_drop (dt : ℝ) (pegs : List Peg) (ball : Ball)
    (hy : ball.pos.y > WINDOW_HEIGHT + Ball.RADIUS) :
    updateBall dt pegs ball = some (none, pegs, none) := by
  rw [updateBall, if_pos hy]

/-- C1, counterexample: at the claimed input (ball at the origin, velocity
(100,0), peg at (50,0) of radius 10, dt = 1) the predictor returns the
impact point (34, 0), whose x-coordinate is not 35: the code's ball radius
is `Ball::RADIUS = 6`, not the 5 the claim assumes, so first contact is at
50 - 16 = 34. -/
theorem C1_counterexample :
    Ball.will_collide ⟨⟨0,0⟩, ⟨100,0⟩, ⟨0,0⟩⟩ ⟨⟨50,0⟩, Shape.Circle 10⟩ 1 =
      some (some ⟨34, 0⟩) ∧
    (Pt.mk 34 0).x ≠ 35 := by
  refine ⟨wc_eval_1, ?_⟩
  norm_num

/-- C1, amended: for a ball at (0,0) with velocity (100,0), a circular peg
at (50,0) with radius 10, and dt = 1, the predictor returns Some impact
point whose x-coordinate equals 50 minus the combined radius
10 + Ball.RADIUS = 16, i.e. 34 (first contact on the approach side). -/
theorem C1_theorem :
    Ball.will_collide ⟨⟨0,0⟩, ⟨100,0⟩, ⟨0,0⟩⟩ ⟨⟨50,0⟩, Shape.Circle 10⟩ 1 =
      some (some ⟨34, 0⟩) ∧
    (34 : ℝ) = 50 - (10 + Ball.RADIUS) := by
  refine ⟨wc_eval_1, ?_⟩
  norm_num [Ball.RADIUS]

/-- C2, counterexample: a ball with zero velocity whose center overlaps the
peg circle extended by the ball radius is reported as colliding, not as
None: at ball (50,10), peg (50,0) radius 10, dt = 1, the vertical branch
returns the contact point (50,16). -/
theorem C2_counterexample :
    (⟨⟨50,10⟩, ⟨0,0⟩, ⟨0,0⟩⟩ : Ball).velocity = ⟨0, 0⟩ ∧
    (0 : ℝ) < 1 ∧
    Ball.will_collide ⟨⟨50,10⟩, ⟨0,0⟩, ⟨0,0⟩⟩ ⟨⟨50,0⟩, Shape.Circle 10⟩ 1 =
      some (some ⟨50, 16⟩) ∧
    some (some (Pt.mk 50 16)) ≠ (some none : Option (Option Pt)) := by
  refine ⟨rfl, by norm_num, ?_, by simp⟩
  have h2 : Real.sqrt 1024 = 32 := sqrt_of_sq _ _ (by norm_num) (by norm_num)
  norm_num [Ball.will_collide, Pt.smul, Pt.length, Pt.length_squared, Pt.dot,
    Pt.distance_to_squared, Pt.to, Pt.sub, Pt.is_longer_than, signum,
    solve_quadratic, Ball.RADIUS, h2, Real.sqrt_zero]

/-- C2, amended: for every ball with zero velocity, circular peg body and
positive dt, if additionally the ball's center is strictly farther than
the combined radius (peg radius + ball radius) from the peg center, the
predictor returns None; a zero-velocity ball overlapping the extended peg
circle can instead be reported as a collision (see the counterexample). -/
theorem C2_theorem (ball : Ball) (pegpos : Pt) (radius dt : ℝ)
    (hv : ball.velocity = ⟨0, 0⟩) (hdt : 0 < dt)
    (hsep : (radius + Ball.RADIUS) ^ 2 < ball.pos.distance_to_squared pegpos) :
    ball.will_collide ⟨pegpos, Shape.Circle radius⟩ dt = some none := by
  simp only [Ball.will_collide, Pt.smul, hv]
  have hlen : Pt.length ⟨0 * dt, 0 * dt⟩ = 0 := by
    simp [Pt.length, Pt.length_squared, Pt.dot]
  rw [hlen, add_zero, if_pos hsep]

/-- Witness for C2: a zero-velocity ball far from the peg gets None. -/
theorem C2_witness :
    Ball.will_collide ⟨⟨0,0⟩, ⟨0,0⟩, ⟨0,0⟩⟩ ⟨⟨50,0⟩, Shape.Circle 10⟩ 1 =
      some none :=
  C2_theorem ⟨⟨0,0⟩, ⟨0,0⟩, ⟨0,0⟩⟩ ⟨50,0⟩ 10 1 rfl (by norm_num)
    (by norm_num [Pt.distance_to_squared, Pt.to, Pt.sub, Pt.length_squared,
      Pt.dot, Ball.RADIUS])

/-- C3, counterexample: in the near-vertical branch no swept-distance check
is made.  A ball at (0,85) moving down at speed 1/2 towards a peg at
(0,100) of radius 10 is inside the broad phase, and the predictor returns
the contact point (0,84) although that point is 1 unit away, twice the
swept distance 1/2 of this tick (it even fails the general branch's
0.99-weighted test). -/
theorem C3_counterexample :
    Ball.will_collide ⟨⟨0,85⟩, ⟨0,1/2⟩, ⟨0,0⟩⟩ ⟨⟨0,100⟩, Shape.Circle 10⟩ 1 =
      some (some ⟨0, 84⟩) ∧
    Pt.distance_to ⟨0,85⟩ ⟨0,84⟩ > (Pt.smul ⟨0,1/2⟩ 1).length ∧
    Pt.distance_to_squared ⟨0,85⟩ ⟨0,84⟩ * 0.99 >
      (Pt.smul ⟨0,1/2⟩ 1).length_squared := by
  have h2 : Real.sqrt 1024 = 32 := sqrt_of_sq _ _ (by norm_num) (by norm_num)
  have h3 : Real.sqrt (4⁻¹) = 2⁻¹ := sqrt_of_sq _ _ (by norm_num) (by norm_num)
  have h4 : Real.sqrt ((1:ℝ)/4) = 1/2 := sqrt_of_sq _ _ (by norm_num) (by norm_num)
  refine ⟨?_, ?_, ?_⟩
  · norm_num [Ball.will_collide, Pt.smul, Pt.length, Pt.length_squared, Pt.dot,
      Pt.distance_to_squared, Pt.to, Pt.sub, Pt.is_longer_than, signum,
      solve_quadratic, Ball.RADIUS, h2, h3, h4]
  · norm_num [Pt.distance_to, Pt.distance_to_squared, Pt.to, Pt.sub, Pt.smul,
      Pt.length, Pt.length_squared, Pt.dot, h3, h4, Real.sqrt_one]
  · norm_num [Pt.distance_to_squared, Pt.to, Pt.sub, Pt.smul,
      Pt.length_squared, Pt.dot]

/-- C3, amended: whenever the predictor takes the general branch
(|movement.x| >= 1) and returns Some impact point, the squared distance
from the ball's position to that point, scaled by the code's 0.99 factor,
does not exceed the squared swept distance; the near-vertical branch
performs no such rejection (see the counterexample). -/
theorem C3_theorem (ball : Ball) (pegpos : Pt) (radius dt : ℝ) (pt : Pt)
    (hgen : 1 ≤ |ball.velocity.x * dt|)
    (h : ball.will_collide ⟨pegpos, Shape.Circle radius⟩ dt = some (some pt)) :
    ball.pos.distance_to_squared pt * 0.99 ≤
      (ball.velocity.smul dt).length_squared := by
  simp only [Ball.will_collide, Pt.smul] at h ⊢
  split at h
  next => simp at h
  next hbroad =>
    split at h
    next hlt => linarith
    next hge =>
      split at h
      next => simp at h
      next x1 x2 hq =>
        split at h
        next hsel =>
          rw [if_pos hsel] at h
          split at h
          next hguard => simp at h
          next hguard =>
            split at h
            next hdist => simp at h
            next hdist =>
              rw [Option.some.injEq, Option.some.injEq] at h
              rw [← h]
              linarith
        next hsel =>
          rw [if_neg hsel] at h
          split at h
          next hguard => simp at h
          next hguard =>
            split at h
            next hdist => simp at h
            next hdist =>
              rw [Option.some.injEq, Option.some.injEq] at h
              rw [← h]
              linarith

/-- Witness for C3: the general-branch collision of `wc_eval_1` satisfies
the 0.99-weighted swept-distance bound (34 squared times 0.99 is at most
100 squared). -/
theorem C3_witness :
    Pt.distance_to_squared ⟨0,0⟩ ⟨34,0⟩ * 0.99 ≤
      (Pt.smul ⟨100,0⟩ 1).length_squared :=
  C3_theorem ⟨⟨0,0⟩, ⟨100,0⟩, ⟨0,0⟩⟩ ⟨50,0⟩ 10 1 ⟨34,0⟩ (by norm_num) wc_eval_1

/-- C4, counterexample: the moving-away rejection is skipped for slow balls.
A ball at (33.5, 0) moving left (velocity (-1,0), well under the 165*dt
guard threshold) against the peg at (50,0) radius 10 receives the impact
point (34, 0), which lies to its right: the direction from the ball to the
chosen root (signum +1) disagrees with the movement direction (signum -1),
yet Some is returned. -/
theorem C4_counterexample :
    Ball.will_collide ⟨⟨67/2,0⟩, ⟨-1,0⟩, ⟨0,0⟩⟩ ⟨⟨50,0⟩, Shape.Circle 10⟩ 1 =
      some (some ⟨34, 0⟩) ∧
    signum ((-1 : ℝ) * 1) = -1 ∧
    signum ((34 : ℝ) - 67/2) = 1 ∧
    (-1 : ℝ) ≠ 1 := by
  have h2 : Real.sqrt 1024 = 32 := sqrt_of_sq _ _ (by norm_num) (by norm_num)
  have h5 : |(65:ℝ)/2| = 65/2 := abs_of_pos (by norm_num)
  have h6 : |(1:ℝ)/2| = 1/2 := abs_of_pos (by norm_num)
  refine ⟨?_, by norm_num [signum], by norm_num [signum], by norm_num⟩
  norm_num [Ball.will_collide, Pt.smul, Pt.length, Pt.length_squared, Pt.dot,
    Pt.distance_to_squared, Pt.to, Pt.sub, Pt.is_longer_than, signum,
    solve_quadratic, Ball.RADIUS, h2, h5, h6, Real.sqrt_one]

/-- C4, amended: the direction-agreement rejection applies exactly under
the code's guard, movement longer than 165*dt.  Under that guard, any
returned impact point agrees in sign with the movement on the branch
coordinate: y (against the velocity's y sign) in the near-vertical branch,
x (against the movement's x sign) in the general branch.  For slower
movement the check is skipped and a receding root may be returned (see the
counterexample). -/
theorem C4_theorem (ball : Ball) (pegpos : Pt) (radius dt : ℝ) (pt : Pt)
    (hfast : (ball.velocity.smul dt).is_longer_than (165 * dt))
    (h : ball.will_collide ⟨pegpos, Shape.Circle radius⟩ dt = some (some pt)) :
    (|ball.velocity.x * dt| < 1 →
      signum ball.velocity.y = signum (pt.y - ball.pos.y)) ∧
    (1 ≤ |ball.velocity.x * dt| →
      signum (ball.velocity.x * dt) = signum (pt.x - ball.pos.x)) := by
  simp only [Pt.smul] at hfast
  simp only [Ball.will_collide, Pt.smul] at h
  split at h
  next => simp at h
  next hbroad =>
    split at h
    next hlt =>
      split at h
      next => simp at h
      next y1 y2 hq =>
        split at h
        next hsel =>
          rw [if_pos hsel] at h
          split at h
          next hguard => simp at h
          next hguard =>
            rw [Option.some.injEq, Option.some.injEq] at h
            push_neg at hguard
            obtain ⟨hx, hy⟩ : pt.x = ball.pos.x ∧ pt.y = y1 := by
              rw [← h]; exact ⟨rfl, rfl⟩
            constructor
            · intro _
              rw [hy]
              exact hguard hfast
            · intro hge; linarith
        next hsel =>
          rw [if_neg hsel] at h
          split at h
          next hguard => simp at h
          next hguard =>
            rw [Option.some.injEq, Option.some.injEq] at h
            push_neg at hguard
            obtain ⟨hx, hy⟩ : pt.x = ball.pos.x ∧ pt.y = y2 := by
              rw [← h]; exact ⟨rfl, rfl⟩
            constructor
            · intro _
              rw [hy]
              exact hguard hfast
            · intro hge; linarith
    next hge =>
      split at h
      next => simp at h
      next x1 x2 hq =>
        split at h
        next hsel =>
          rw [if_pos hsel] at h
          split at h
          next hguard => simp at h
          next hguard =>
            split at h
            next hdist => simp at h
            next hdist =>
              rw [Option.some.injEq, Option.some.injEq] at h
              push_neg at hguard
              obtain hx : pt.x = x1 := by rw [← h]
              constructor
              · intro hlt; linarith
              · intro _
                rw [hx]
                exact hguard hfast
        next hsel =>
          rw [if_neg hsel] at h
          split at h
          next hguard => simp at h
          next hguard =>
            split at h
            next hdist => simp at h
            next hdist =>
              rw [Option.some.injEq, Option.some.injEq] at h
              push_neg at hguard
              obtain hx : pt.x = x2 := by rw [← h]
              constructor
              · intro hlt; linarith
              · intro _
                rw [hx]
                exact hguard hfast

/-- Witness for C4: a fast ball (speed 200 over the 165*dt guard) hitting
the peg of `wc_eval_fast` satisfies the general-branch sign agreement. -/
theorem C4_witness :
    signum ((200 : ℝ) * 1) = signum ((34 : ℝ) - 0) :=
  (C4_theorem ⟨⟨0,0⟩, ⟨200,0⟩, ⟨0,0⟩⟩ ⟨50,0⟩ 10 1 ⟨34,0⟩
    (by norm_num [Pt.smul, Pt.is_longer_than, Pt.length_squared, Pt.dot])
    wc_eval_fast).2 (by norm_num)

/-- C5: for every resolved collision (a `processPeg` run that reports a
hit), the post-bounce speed equals the pre-impact speed times
`Ball.ELASTICITY = 0.9`, whatever the impact angle, because the resolver
rescales the reflected velocity to that length; the de-penetration step
does not change the velocity, so the pre-impact speed is the incoming
ball's speed. -/
theorem C5_theorem (dt : ℝ) (ball : Ball) (peg : Peg) (b2 : Ball) (peg2 : Peg)
    (h : processPeg dt ball peg = some (b2, peg2, true)) :
    b2.velocity.length = ball.velocity.length * Ball.ELASTICITY := by
  simp only [processPeg] at h
  split at h
  next => simp at h
  next radius hshape =>
    split at h
    next => simp at h
    next hwc => simp at h
    next collision hwc =>
      rw [Option.some.injEq, Prod.mk.injEq, Prod.mk.injEq] at h
      obtain ⟨hb2, -, -⟩ := h
      have hvel := depen_velocity ball peg.body.pos radius
      set b1 := depenetrateCircle ball peg.body.pos radius with hb1
      have hv2 : b2.velocity =
          (b1.velocity.add
            (((peg.body.pos.to collision).normalized).smul
              (|(peg.body.pos.to collision).normalized.dot b1.velocity| * 2))).with_length
            (b1.velocity.length * Ball.ELASTICITY) := by
        rw [← hb2]
      rw [hv2, hvel]
      by_cases hv : ball.velocity = ⟨0, 0⟩
      · rw [hv]
        have hz : Pt.length ⟨0, 0⟩ = 0 := Pt.length_eq_zero _ |>.mpr rfl
        rw [hz, zero_mul, Pt.with_length, Pt.smul_zero_eq, hz]
      · have hne := reflect_add_ne_zero ball.velocity
          (peg.body.pos.to collision).normalized hv
          (by
            rcases Pt.normalized_cases (peg.body.pos.to collision) with h0 | h1
            · exact Or.inl h0
            · exact Or.inr h1)
        exact Pt.with_length_length _ _ hne
          (mul_nonneg (Pt.length_nonneg _) (by norm_num [Ball.ELASTICITY]))

/-- Witness for C5: the resolution of `pp_eval_hit` turns speed 100 into
speed 90 = 100 * 0.9. -/
theorem C5_witness :
    Pt.length ⟨-90, 0⟩ = Pt.length ⟨100, 0⟩ * Ball.ELASTICITY :=
  C5_theorem 1 ⟨⟨0,0⟩, ⟨100,0⟩, ⟨0,0⟩⟩
    ⟨⟨⟨50,0⟩, Shape.Circle 10⟩, false, PegType.Standard⟩
    ⟨⟨-32,0⟩, ⟨-90,0⟩, ⟨0,0⟩⟩
    ⟨⟨⟨50,0⟩, Shape.Circle 10⟩, true, PegType.Standard⟩ pp_eval_hit

/-- C6: the peg scan of a step resolves at most one collision per ball.
Either no collision is resolved and the peg list is returned unchanged, or
there is a unique decomposition: a prefix scanned entirely without
collision (flag `none`, pegs unchanged), the first colliding peg, which is
resolved (its `is_hit` set, the resolution ball returned), and a suffix
returned untouched because the loop breaks there. -/
theorem C6_theorem (dt : ℝ) (pegs : List Peg) :
    ∀ ball b2 pegs2 oi, scanPegs dt ball pegs = some (b2, pegs2, oi) →
    (oi = none → pegs2 = pegs) ∧
    (∀ j, oi = some j → ∃ pre peg post b1,
      pegs = pre ++ peg :: post ∧
      pre.length = j ∧
      scanPegs dt ball pre = some (b1, pre, none) ∧
      processPeg dt b1 peg = some (b2, ⟨peg.body, true, peg.peg_type⟩, true) ∧
      pegs2 = pre ++ ⟨peg.body, true, peg.peg_type⟩ :: post) := by
  induction pegs with
  | nil =>
    intro ball b2 pegs2 oi h
    rw [scanPegs, Option.some.injEq, Prod.mk.injEq, Prod.mk.injEq] at h
    obtain ⟨-, hp, ho⟩ := h
    exact ⟨fun _ => hp.symm, fun j hj => absurd (ho ▸ hj) (by simp)⟩
  | cons peg rest ih =>
    intro ball b2 pegs2 oi h
    rw [scanPegs] at h
    cases hp : processPeg dt ball peg with
    | none => rw [hp] at h; exact absurd h (by simp)
    | some trip =>
      obtain ⟨b1, peg1, flag⟩ := trip
      rw [hp] at h
      cases flag with
      | true =>
        have hpeg1 := processPeg_true_peg dt ball peg b1 peg1 hp
        dsimp only at h
        rw [Option.some.injEq, Prod.mk.injEq, Prod.mk.injEq] at h
        obtain ⟨hb, hl, ho⟩ := h
        constructor
        · intro h0; exact absurd (ho ▸ h0) (by simp)
        · intro j hj
          have hj0 : j = 0 := by
            rw [← ho] at hj
            exact (Option.some.injEq _ _).mp hj.symm
          subst hj0
          refine ⟨[], peg, rest, ball, by simp, rfl, rfl, ?_, ?_⟩
          · rw [hp, hb, hpeg1]
          · rw [← hl, hpeg1]
            simp
      | false =>
        have hpeg1 := processPeg_false_peg dt ball peg b1 peg1 hp
        subst hpeg1
        dsimp only at h
        cases hs : scanPegs dt b1 rest with
        | none => rw [hs] at h; exact absurd h (by simp)
        | some trip2 =>
          obtain ⟨b2x, rest2, oi2⟩ := trip2
          rw [hs, Option.some.injEq, Prod.mk.injEq, Prod.mk.injEq] at h
          obtain ⟨hb, hl, ho⟩ := h
          obtain ⟨ihn, ihs⟩ := ih b1 b2x rest2 oi2 hs
          constructor
          · intro h0
            rw [← ho] at h0
            have h1 : oi2 = none := by
              cases oi2 with
              | none => rfl
              | some k => simp at h0
            rw [← hl, ihn h1]
          · intro j hj
            rw [← ho] at hj
            obtain ⟨j2, hj2, rfl⟩ : ∃ j2, oi2 = some j2 ∧ j = j2 + 1 := by
              cases oi2 with
              | none => simp at hj
              | some k =>
                refine ⟨k, rfl, ?_⟩
                simpa using hj.symm
            obtain ⟨pre2, pegH, post2, b1x, hrest, hlen, hscan, hproc, hrest2⟩ :=
              ihs j2 hj2
            refine ⟨peg1 :: pre2, pegH, post2, b1x, by rw [hrest]; rfl,
              by simp [hlen], ?_, by rw [hb] at hproc; exact hproc, ?_⟩
            · rw [scanPegs, hp]
              dsimp only
              rw [hscan]
              rfl
            · rw [← hl, hrest2]
              rfl

/-- Witness for C6: in the three-peg scan of `scan_eval` the resolved index
is 1 and the decomposition exists: the one-peg prefix scans clean, the
second peg is resolved, the third is untouched. -/
theorem C6_witness :
    ∃ pre peg post b1,
      [⟨⟨⟨0,500⟩, Shape.Circle 10⟩, false, PegType.Standard⟩,
       ⟨⟨⟨50,0⟩, Shape.Circle 10⟩, false, PegType.Standard⟩,
       (⟨⟨⟨0,999⟩, Shape.Circle 10⟩, false, PegType.Standard⟩ : Peg)] =
        pre ++ peg :: post ∧
      pre.length = 1 ∧
      scanPegs 1 ⟨⟨0,0⟩, ⟨100,0⟩, ⟨0,0⟩⟩ pre = some (b1, pre, none) ∧
      processPeg 1 b1 peg =
        some (⟨⟨-32,0⟩, ⟨-90,0⟩, ⟨0,0⟩⟩, ⟨peg.body, true, peg.peg_type⟩, true) ∧
      [⟨⟨⟨0,500⟩, Shape.Circle 10⟩, false, PegType.Standard⟩,
       ⟨⟨⟨50,0⟩, Shape.Circle 10⟩, true, PegType.Standard⟩,
       ⟨⟨⟨0,999⟩, Shape.Circle 10⟩, false, PegType.Standard⟩] =
        pre ++ ⟨peg.body, true, peg.peg_type⟩ :: post :=
  (C6_theorem 1 _ _ _ _ _ scan_eval).2 1 rfl

/-- C7: a ball whose y-coordinate exceeds the playfield height plus the
ball radius at the start of a step is dropped before any processing: its
pass returns kept = false with the peg list untouched and no collision
resolved, and the whole-pool pass equals the pass with that ball deleted
from the pool, so the ball is absent afterwards and contributes nothing. -/
theorem C7_theorem (dt : ℝ) (pegs : List Peg) (ball : Ball)
    (pre post : List Ball)
    (hy : ball.pos.y > WINDOW_HEIGHT + Ball.RADIUS) :
    updateBall dt pegs ball = some (none, pegs, none) ∧
    updateBalls dt (pre ++ ball :: post) pegs = updateBalls dt (pre ++ post) pegs := by
  refine ⟨updateBall_drop dt pegs ball hy, ?_⟩
  induction pre generalizing pegs with
  | nil =>
    rw [List.nil_append, List.nil_append, updateBalls,
      updateBall_drop dt pegs ball hy]
    dsimp only
    cases h : updateBalls dt post pegs with
    | none => rfl
    | some trip =>
      obtain ⟨bs2, pegs2, is⟩ := trip
      rfl
  | cons b pre2 ih =>
    rw [List.cons_append, List.cons_append, updateBalls, updateBalls]
    cases hub : updateBall dt pegs b with
    | none => rfl
    | some trip =>
      obtain ⟨ob, pegs1, oi⟩ := trip
      dsimp only
      rw [ih pegs1]

/-- Witness for C7: a ball at y = 900 > 806 is dropped; the singleton pool
steps to the empty pool's result. -/
theorem C7_witness :
    updateBall 1 [] ⟨⟨0,900⟩, ⟨0,0⟩, ⟨0,0⟩⟩ = some (none, [], none) ∧
    updateBalls 1 [⟨⟨0,900⟩, ⟨0,0⟩, ⟨0,0⟩⟩] [] = updateBalls 1 [] [] :=
  C7_theorem 1 [] ⟨⟨0,900⟩, ⟨0,0⟩, ⟨0,0⟩⟩ [] []
    (by norm_num [WINDOW_HEIGHT, Ball.RADIUS])

/-- C8: in every state reachable by shoots and steps from a board whose
pegs are all un-hit (as `Poggle::new` builds), a peg's `is_hit` flag is
true exactly when the ghost history says some ball has collided with that
peg since the ball pool was last empty; and whenever the pool is empty,
every flag is false (the step that empties the pool resets them). -/
theorem C8_theorem (P : Poggle) (g : List Bool) (h : ReachG P g) :
    (P.pegs.length = g.length ∧
      ∀ i (h1 : i < P.pegs.length) (h2 : i < g.length),
        (P.pegs[i].is_hit = true ↔ g[i] = true)) ∧
    (P.balls.isEmpty = true → ∀ peg ∈ P.pegs, peg.is_hit = false) := by
  induction h with
  | init balls pegs tick hflags =>
    refine ⟨⟨by simp, ?_⟩, fun _ => hflags⟩
    intro i h1 h2
    have h1x : i < pegs.length := h1
    have hfi : pegs[i].is_hit = false := hflags pegs[i] (List.getElem_mem h1x)
    show pegs[i].is_hit = true ↔ (List.replicate pegs.length false)[i] = true
    simp [hfi]
  | shoot P g o v hre ih =>
    obtain ⟨ih1, ih2⟩ := ih
    refine ⟨ih1, ?_⟩
    intro hempty
    simp [Poggle.shoot, List.isEmpty_iff] at hempty
  | step P g dt P₂ balls2 pegs2 is hre hup hub ih =>
    rw [Poggle.update, hub] at hup
    dsimp only at hup
    rw [Option.some.injEq] at hup
    subst hup
    obtain ⟨⟨ihlen, ihidx⟩, ihemp⟩ := ih
    obtain ⟨ulen, uidx⟩ := updateBalls_pegs dt P.balls P.pegs balls2 pegs2 is hub
    cases hempty : balls2.isEmpty with
    | true =>
      refine ⟨⟨by simp [hempty], ?_⟩, ?_⟩
      · intro i h1 h2
        simp only [hempty] at h1 ⊢
        simp only [if_true] at h1 ⊢
        simp [List.getElem_map, resetPeg, List.getElem_replicate]
      · intro _ peg hpeg
        simp only [hempty, if_true] at hpeg
        obtain ⟨x, -, rfl⟩ := List.mem_map.mp hpeg
        rfl
    | false =>
      refine ⟨⟨?_, ?_⟩, ?_⟩
      · simp only [hempty]
        simp only [Bool.false_eq_true, if_false]
        rw [ulen, ihlen, ghostStep_length]
      · intro i h1 h2
        simp only [hempty, Bool.false_eq_true, if_false] at h1 h2 ⊢
        have hig : i < g.length := by
          rw [ghostStep_length] at h2
          exact h2
        have hip : i < P.pegs.length := by omega
        obtain ⟨-, -, hflag⟩ := uidx i hip h1
        rw [hflag, ihidx i hip hig, ghostStep_get is g i hig h2]
      · intro h0
        exact absurd h0 (by simp)

/-- Witness for C8: a one-peg board with the flag clear and empty pool is
reachable (it is an initial board), its flag matches the ghost [false],
and the empty-pool clause applies. -/
theorem C8_witness :
    ([(⟨⟨⟨0,0⟩, Shape.Circle 1⟩, false, PegType.Standard⟩ : Peg)].length =
      ([false] : List Bool).length) ∧
    (⟨⟨⟨0,0⟩, Shape.Circle 1⟩, false, PegType.Standard⟩ : Peg).is_hit = false := by
  have hreach : ReachG ⟨[], [⟨⟨⟨0,0⟩, Shape.Circle 1⟩, false, PegType.Standard⟩], 0⟩
      [false] := by
    have h := ReachG.init []
      [⟨⟨⟨0,0⟩, Shape.Circle 1⟩, false, PegType.Standard⟩] 0
      (by intro peg hpeg; simp at hpeg; rw [hpeg])
    simpa using h
  have h := C8_theorem ⟨[], [⟨⟨⟨0,0⟩, Shape.Circle 1⟩, false, PegType.Standard⟩], 0⟩
    [false] hreach
  exact ⟨h.1.1, h.2 rfl _ (by simp)⟩

/-- C9: neither `shoot` nor `update` adds, removes or repositions a peg:
`shoot` leaves the peg list untouched, and any successful `update`
preserves the peg list length and every peg's body (position and shape)
and type; only `is_hit` can differ. -/
theorem C9_theorem :
    (∀ (P : Poggle) (o v : Pt), (P.shoot o v).pegs = P.pegs) ∧
    (∀ (P : Poggle) (dt : ℝ) (P₂ : Poggle), P.update dt = some P₂ →
      P₂.pegs.length = P.pegs.length ∧
      ∀ i (h1 : i < P.pegs.length) (h2 : i < P₂.pegs.length),
        P₂.pegs[i].body = P.pegs[i].body ∧
        P₂.pegs[i].peg_type = P.pegs[i].peg_type) := by
  constructor
  · intro P o v
    rfl
  · intro P dt P₂ hup
    rw [Poggle.update] at hup
    cases hub : updateBalls dt P.balls P.pegs with
    | none => rw [hub] at hup; exact absurd hup (by simp)
    | some trip =>
      obtain ⟨balls2, pegs2, is⟩ := trip
      rw [hub] at hup
      dsimp only at hup
      rw [Option.some.injEq] at hup
      subst hup
      obtain ⟨ulen, uidx⟩ := updateBalls_pegs dt P.balls P.pegs balls2 pegs2 is hub
      cases hempty : balls2.isEmpty with
      | true =>
        refine ⟨by simp [ulen], ?_⟩
        intro i h1 h2
        have h2x : i < pegs2.length := by
          simp at h2
          omega
        obtain ⟨hb, ht, -⟩ := uidx i h1 h2x
        constructor
        · show (pegs2.map resetPeg)[i].body = _
          rw [List.getElem_map]
          exact hb
        · show (pegs2.map resetPeg)[i].peg_type = _
          rw [List.getElem_map]
          exact ht
      | false =>
        refine ⟨ulen, ?_⟩
        intro i h1 h2
        have h2x : i < pegs2.length := h2
        obtain ⟨hb, ht, -⟩ := uidx i h1 h2x
        exact ⟨hb, ht⟩

/-- Witness for C9: on a one-peg board with empty pool, stepping resets the
flag but keeps the peg list length, and shooting keeps the peg list. -/
theorem C9_witness :
    (⟨[], [⟨⟨⟨0,0⟩, Shape.Circle 1⟩, false, PegType.Standard⟩], 1 % 2 ^ 64⟩
        : Poggle).pegs.length =
      (⟨[], [⟨⟨⟨0,0⟩, Shape.Circle 1⟩, false, PegType.Standard⟩], 0⟩
        : Poggle).pegs.length ∧
    (Poggle.shoot ⟨[], [⟨⟨⟨0,0⟩, Shape.Circle 1⟩, false, PegType.Standard⟩], 0⟩
        ⟨1,2⟩ ⟨3,4⟩).pegs =
      [⟨⟨⟨0,0⟩, Shape.Circle 1⟩, false, PegType.Standard⟩] :=
  ⟨(C9_theorem.2 ⟨[], [⟨⟨⟨0,0⟩, Shape.Circle 1⟩, false, PegType.Standard⟩], 0⟩
      1 ⟨[], [⟨⟨⟨0,0⟩, Shape.Circle 1⟩, false, PegType.Standard⟩], 1 % 2 ^ 64⟩
      rfl).1,
    C9_theorem.1 ⟨[], [⟨⟨⟨0,0⟩, Shape.Circle 1⟩, false, PegType.Standard⟩], 0⟩
      ⟨1,2⟩ ⟨3,4⟩⟩

/-- C10, counterexample: when the ball's center coincides with the peg's
center the de-penetration guard holds, but the ball is not repositioned to
the combined radius: the direction vector is zero, its normalization is
the zero vector (NaN in the f32 original), and the ball stays at the peg
center, at distance 0 rather than 10 + Ball.RADIUS = 16. -/
theorem C10_counterexample :
    ((⟨50, 0⟩ : Pt).sub (⟨⟨50, 0⟩, ⟨0, 0⟩, ⟨0, 0⟩⟩ : Ball).pos).length_squared ≤
      (10 + Ball.RADIUS) * (10 + Ball.RADIUS) ∧
    (depenetrateCircle ⟨⟨50, 0⟩, ⟨0, 0⟩, ⟨0, 0⟩⟩ ⟨50, 0⟩ 10).pos.distance_to
      ⟨50, 0⟩ = 0 ∧
    (10 : ℝ) + Ball.RADIUS ≠ 0 := by
  norm_num [depenetrateCircle, Pt.sub, Pt.length_squared, Pt.dot, Pt.add, Pt.to,
    Pt.with_length, Pt.normalized, Pt.smul, Pt.length, Pt.distance_to,
    Pt.distance_to_squared, Ball.RADIUS, Real.sqrt_zero]

/-- C10, amended: for a circular peg of positive radius, if the ball's
post-integration center lies inside the peg circle extended by the ball
radius and is distinct from the peg center, the de-penetration places the
ball exactly at the combined radius from the peg center, along the
direction from the peg center to the ball (a positive multiple of it),
leaving velocity and start untouched; and when the predictor then reports
no collision the scan continues past the peg with the flag false and the
peg unchanged.  When the centers coincide the repositioning degenerates to
the peg center itself (see the counterexample). -/
theorem C10_theorem (ball : Ball) (pegpos : Pt) (radius : ℝ) (hr : 0 < radius)
    (hin : (pegpos.sub ball.pos).length_squared ≤
      (radius + Ball.RADIUS) * (radius + Ball.RADIUS))
    (hne : ball.pos ≠ pegpos) :
    (depenetrateCircle ball pegpos radius).pos.distance_to pegpos =
      radius + Ball.RADIUS ∧
    (depenetrateCircle ball pegpos radius).velocity = ball.velocity ∧
    (depenetrateCircle ball pegpos radius).start = ball.start ∧
    (∃ t : ℝ, 0 < t ∧
      (depenetrateCircle ball pegpos radius).pos.sub pegpos =
        (ball.pos.sub pegpos).smul t) ∧
    (∀ (dt : ℝ) (ih0 : Bool) (ptype : PegType),
      (depenetrateCircle ball pegpos radius).will_collide
          ⟨pegpos, Shape.Circle radius⟩ dt = some none →
      processPeg dt ball ⟨⟨pegpos, Shape.Circle radius⟩, ih0, ptype⟩ =
        some (depenetrateCircle ball pegpos radius,
          ⟨⟨pegpos, Shape.Circle radius⟩, ih0, ptype⟩, false)) := by
  have hL : 0 < radius + Ball.RADIUS := by norm_num [Ball.RADIUS]; linarith
  have hu : pegpos.to ball.pos ≠ ⟨0, 0⟩ := by
    rw [Pt.to]
    intro h0
    exact hne ((Pt.sub_eq_zero_iff_eq _ _).mp h0)
  have hulen : (pegpos.to ball.pos).length ≠ 0 := by
    intro h0
    exact hu ((Pt.length_eq_zero _).mp h0)
  have hulenpos : 0 < (pegpos.to ball.pos).length :=
    lt_of_le_of_ne (Pt.length_nonneg _) (Ne.symm hulen)
  have hd : depenetrateCircle ball pegpos radius =
      ⟨pegpos.add ((pegpos.to ball.pos).with_length (radius + Ball.RADIUS)),
        ball.velocity, ball.start⟩ := by
    rw [depenetrateCircle, if_pos hin]
  refine ⟨?_, by rw [hd], by rw [hd], ?_, ?_⟩
  · rw [hd]
    show (pegpos.add _).distance_to pegpos = _
    rw [Pt.distance_add_left]
    exact Pt.with_length_length _ _ hu (le_of_lt hL)
  · refine ⟨(radius + Ball.RADIUS) / (pegpos.to ball.pos).length,
      div_pos hL hulenpos, ?_⟩
    rw [hd]
    show (pegpos.add _).sub pegpos = _
    rw [Pt.add_sub_cancel_left, Pt.with_length_eq_smul, Pt.to]
  · intro dt ih0 ptype hwc
    simp only [processPeg]
    rw [hwc]

/-- Witness for C10: a ball at (60,0) overlapping a peg at (50,0) of radius
10 is pushed out to distance 16 with its velocity kept. -/
theorem C10_witness :
    (depenetrateCircle ⟨⟨60,0⟩, ⟨1,2⟩, ⟨5,6⟩⟩ ⟨50,0⟩ 10).pos.distance_to ⟨50,0⟩ =
      10 + Ball.RADIUS ∧
    (depenetrateCircle ⟨⟨60,0⟩, ⟨1,2⟩, ⟨5,6⟩⟩ ⟨50,0⟩ 10).velocity = ⟨1,2⟩ :=
  ⟨(C10_theorem ⟨⟨60,0⟩, ⟨1,2⟩, ⟨5,6⟩⟩ ⟨50,0⟩ 10 (by norm_num)
      (by norm_num [Pt.sub, Pt.length_squared, Pt.dot, Ball.RADIUS])
      (by simp [Pt.mk.injEq])).1,
    (C10_theorem ⟨⟨60,0⟩, ⟨1,2⟩, ⟨5,6⟩⟩ ⟨50,0⟩ 10 (by norm_num)
      (by norm_num [Pt.sub, Pt.length_squared, Pt.dot, Ball.RADIUS])
      (by simp [Pt.mk.injEq])).2.1⟩
